import Mathlib

/-!
Verification development for the fitgirl-downloader release-synchronization
pipeline.  The definitions below are a shallow embedding of the Python source:

* `backend/game_release.py`   — the `GameRelease` data model,
* `backend/json_database_manager.py` — the JSON store (`insert_release`,
  `update_release`, `delete_release`, `_get_next_id`),
* `app.py`                    — the duplicate resolver
  (`insert_release_callback` inside `sync_releases_worker`) and the
  `/api/sync` endpoint (`sync_releases`),
* `backend/x1337_scraper.py`  — the page loops (`get_releases_from_pages`,
  `_get_torrent_links_from_torrents_page`), the magnet-link gate, the
  relative-date parser (`_parse_relative_date`, `_calculate_date_from_ago`)
  and the short-description derivation in `_extract_release_details`.

Timestamps are modelled as integers (seconds); `datetime.now()` becomes an
explicit parameter.  JSON dictionaries that may lack a key are modelled with
`Option` (`none` = the key is absent from the dict).
-/

namespace FitGirl

/-- `ReleaseStatus` from `backend/game_release.py`. -/
inductive ReleaseStatus where
  | NEW
  | DOWNLOADED
  | IGNORED
deriving DecidableEq

/-- The `GameRelease` dataclass (`backend/game_release.py`), restricted to the
fields the synchronization pipeline reads.  `magnetLink = ""` also stands for
the Python value `None`, which behaves identically everywhere a `GameRelease`
is consumed (both are falsy). -/
structure GameRelease where
  url : String
  title : String
  description : String
  shortDescription : String
  magnetLink : String
  size : String
  screenshotUrls : List String
  status : ReleaseStatus
deriving DecidableEq

/-- `GameRelease.has_download_links`: `bool(self.magnet_link)`. -/
def GameRelease.hasDownloadLinks (r : GameRelease) : Bool :=
  r.magnetLink ≠ ""

/-- One entry of `db_structure["releases"]` in
`backend/json_database_manager.py`: the JSON dict written by
`_release_to_dict` plus the `"id"` key.  `magnetLink = none` models a JSON
`null`; `createdAt`/`updatedAt` are `none` when the key is absent from the
dict — `_release_to_dict` writes neither, only `update_release` /
`update_release_by_id` add them. -/
structure StoredRelease where
  id : Nat
  url : String
  title : String
  description : String
  shortDescription : String
  magnetLink : Option String
  size : String
  screenshotUrls : List String
  status : ReleaseStatus
  createdAt : Option Nat
  updatedAt : Option Nat
deriving DecidableEq

/-- The magnet half of the composite key as computed in
`sync_releases_worker` and `insert_release_callback` (`app.py`):
`release.magnet_link if release.magnet_link else "no_magnet"`. -/
def candMagnetKey (m : String) : String :=
  if m = "" then "no_magnet" else m

/-- Composite key `(release.url, magnet_key)` of a candidate (`app.py`). -/
def releaseKey (r : GameRelease) : String × String :=
  (r.url, candMagnetKey r.magnetLink)

/-- The magnet value used by the duplicate check inside
`JsonDatabaseManager.insert_release`:
`existing_release.get("magnet_link", "no_magnet")`, then `None` is replaced
by `"no_magnet"`.  Note an empty string stays `""` here. -/
def insMagnetKey (m : Option String) : String :=
  match m with
  | none => "no_magnet"
  | some s => s

/-- The composite key under which a stored record is indexed by the worker:
`get_all_releases` rebuilds a `GameRelease` (a JSON `null` magnet becomes a
falsy value) and the worker applies the candidate keying to it. -/
def storedKey (r : StoredRelease) : String × String :=
  (r.url, candMagnetKey (r.magnetLink.getD ""))

/-- `JsonDatabaseManager._get_next_id`:
`1` on an empty list, otherwise `max(ids) + 1`. -/
def get_next_id (db : List StoredRelease) : Nat :=
  if db = [] then 1
  else (db.map StoredRelease.id).foldl max 0 + 1

/-- `JsonDatabaseManager.insert_release`: reject when some stored record has
the same URL and the same magnet value (under `insMagnetKey`); otherwise
assign `_get_next_id`, append the dict produced by `_release_to_dict`
(which contains no `created_at`/`updated_at` keys) and return the new id. -/
def insert_release (db : List StoredRelease) (c : GameRelease) :
    Option (Nat × List StoredRelease) :=
  if db.any (fun r => r.url = c.url ∧ insMagnetKey r.magnetLink = candMagnetKey c.magnetLink)
  then none
  else
    let newId := get_next_id db
    some (newId, db ++ [{
      id := newId
      url := c.url
      title := c.title
      description := c.description
      shortDescription := c.shortDescription
      magnetLink := some c.magnetLink
      size := c.size
      screenshotUrls := c.screenshotUrls
      status := c.status
      createdAt := none
      updatedAt := none }])

/-- The record `update_release` writes in place of the matched one:
the candidate's dict with the old `id`, the old `created_at` and a fresh
`updated_at`. -/
def updatedRecord (c : GameRelease) (oldId : Nat) (oldCreated : Nat) (now : Nat) :
    StoredRelease :=
  { id := oldId
    url := c.url
    title := c.title
    description := c.description
    shortDescription := c.shortDescription
    magnetLink := some c.magnetLink
    size := c.size
    screenshotUrls := c.screenshotUrls
    status := c.status
    createdAt := some oldCreated
    updatedAt := some now }

/-- `JsonDatabaseManager.update_release`: scan for the first stored record
with the candidate's URL; overwrite it, copying `id` and `created_at` and
stamping `updated_at`.  Reading `existing_release["created_at"]` raises
`KeyError` when the key is absent (which is the case for every record written
by `insert_release`); the surrounding `except` turns that into `False` with
the store untouched — modelled by the `none` result. -/
def update_release (db : List StoredRelease) (c : GameRelease) (now : Nat) :
    Option (List StoredRelease) :=
  match db with
  | [] => none
  | r :: rest =>
    if r.url = c.url then
      match r.createdAt with
      | some created => some (updatedRecord c r.id created now :: rest)
      | none => none
    else
      (update_release rest c now).map (r :: ·)

/-- `JsonDatabaseManager.delete_release`: pop the first record whose id
matches; `none` models the `False` (not found) result. -/
def delete_release (db : List StoredRelease) (rid : Nat) :
    Option (List StoredRelease) :=
  match db with
  | [] => none
  | r :: rest =>
    if r.id = rid then some rest
    else (delete_release rest rid).map (r :: ·)

/-- Python-dict lookup.  The worker's `existing_release_keys` dict is modelled
as an association list where an assignment prepends its entry, so the first
matching entry is the most recent assignment (last-writer-wins, as for a
Python dict). -/
def dictLookup (l : List ((String × String) × GameRelease)) (k : String × String) :
    Option GameRelease :=
  match l with
  | [] => none
  | (k₀, v) :: rest => if k = k₀ then some v else dictLookup rest k

/-- The `needs_update` test of `insert_release_callback` (`app.py`): the
description, the size, or the number of screenshots differs. -/
def needs_update (existing c : GameRelease) : Bool :=
  existing.description ≠ c.description ∨
  existing.size ≠ c.size ∨
  existing.screenshotUrls.length ≠ c.screenshotUrls.length

/-- The mutable state shared by `sync_releases_worker` and its callbacks:
the store, the two in-memory lookup structures (`existing_release_keys`,
`existing_urls`) and the three counters. -/
structure SyncState where
  db : List StoredRelease
  keys : List ((String × String) × GameRelease)
  urls : List String
  newReleases : Nat
  updatedReleases : Nat
  skippedReleases : Nat
deriving DecidableEq

/-- Which branch of `insert_release_callback` ran for a candidate:
`inserted` = the new-release branch with a successful `insert_release`;
`updated` = existing key, stored status `NEW`, `needs_update` holds (the
update branch); `skipped` = existing key, no update performed;
`insertFailed` = the new-release branch but `insert_release` returned `None`. -/
inductive Classification where
  | inserted
  | updated
  | skipped
  | insertFailed
deriving DecidableEq

/-- `insert_release_callback` from `sync_releases_worker` (`app.py`), as a
state transformer.  Returns the successor state, the branch that ran, and the
callback's boolean result.  Mirrors the source order: on an existing key the
`skipped_releases` counter is incremented first, then (status `NEW` and
`needs_update` only) `db_manager.update_release` is called — its result is
ignored — and `updated_releases` is incremented; on an unseen key
`db_manager.insert_release` is called and, on success, `new_releases` is
incremented and both lookup structures are extended in place. -/
def insert_release_callback (st : SyncState) (c : GameRelease) (now : Nat) :
    SyncState × Classification × Bool :=
  match dictLookup st.keys (releaseKey c) with
  | some existing =>
    if existing.status = ReleaseStatus.NEW ∧ needs_update existing c then
      ({ st with
          db := (update_release st.db c now).getD st.db
          updatedReleases := st.updatedReleases + 1
          skippedReleases := st.skippedReleases + 1 },
        Classification.updated, true)
    else
      ({ st with skippedReleases := st.skippedReleases + 1 },
        Classification.skipped, true)
  | none =>
    match insert_release st.db c with
    | some p =>
      ({ st with
          db := p.2
          newReleases := st.newReleases + 1
          keys := (releaseKey c, c) :: st.keys
          urls := c.url :: st.urls },
        Classification.inserted, true)
    | none => (st, Classification.insertFailed, false)

/-- Run the callback over a list of candidates, recording the branch taken
for each one (in order). -/
def runTrace (st : SyncState) (cs : List GameRelease) (now : Nat) :
    SyncState × List Classification :=
  match cs with
  | [] => (st, [])
  | c :: rest =>
    let step := insert_release_callback st c now
    let tail := runTrace step.1 rest now
    (tail.1, step.2.1 :: tail.2)

/-- The per-torrent body of the processing loop in
`X1337Scraper.get_releases_from_pages`: fast URL pre-check
(`url_exists_callback` is membership in the worker's `existing_urls`), then
detail extraction, then the `release and release.has_download_links` gate
before `insert_callback`. -/
def process_torrent (extract : String → Option GameRelease) (now : Nat)
    (st : SyncState) (u : String) : SyncState :=
  if u ∈ st.urls then st
  else
    match extract u with
    | some rel =>
      if rel.hasDownloadLinks then (insert_release_callback st rel now).1
      else st
    | none => st

/-- The torrent-processing loop of `X1337Scraper.get_releases_from_pages`
over the collected detail URLs. -/
def process_torrents (extract : String → Option GameRelease) (now : Nat)
    (st : SyncState) (urls : List String) : SyncState :=
  urls.foldl (process_torrent extract now) st

/-- Shared inner body of the page loops: append to the accumulated
`torrent_links` every link of the fetched page that is not already present,
also returning the `page_links` list of links newly found on this page. -/
def dedupAppend (acc : List String) (links : List String) :
    List String × List String :=
  links.foldl
    (fun (p : List String × List String) u =>
      if u ∈ p.1 then p else (p.1 ++ [u], p.2 ++ [u]))
    (acc, [])

/-- The page loop of `X1337Scraper.get_releases_from_pages`
(`for page in range(start_page, end_page + 1)`).  `fetch page` stands for the
detail links found in the fetched page's table rows.  The loop body has no
early-exit: every page of the range is visited.  Returns the visited pages
and the accumulated links; `count` is the number of remaining iterations. -/
def pages_loop_no_stop (fetch : Nat → List String) :
    Nat → Nat → List String → List Nat → List Nat × List String
  | 0, _, acc, visited => (visited, acc)
  | count + 1, page, acc, visited =>
    let step := dedupAppend acc (fetch page)
    pages_loop_no_stop fetch count (page + 1) step.1 (visited ++ [page])

/-- The page-gathering phase of `X1337Scraper.get_releases_from_pages` for the
range `start_page .. end_page` (both inclusive, `range(start, end+1)`). -/
def get_releases_from_pages_pagesLoop (fetch : Nat → List String)
    (startPage endPage : Nat) : List Nat × List String :=
  pages_loop_no_stop fetch (endPage + 1 - startPage) startPage [] []

/-- The page loop of `X1337Scraper._get_torrent_links_from_torrents_page`:
identical to the one above except for the `if not page_links: break`
early-exit when a page contributes no new links. -/
def pages_loop_stop (fetch : Nat → List String) :
    Nat → Nat → List String → List Nat → List Nat × List String
  | 0, _, acc, visited => (visited, acc)
  | count + 1, page, acc, visited =>
    let step := dedupAppend acc (fetch page)
    if step.2 = [] then (visited ++ [page], step.1)
    else pages_loop_stop fetch count (page + 1) step.1 (visited ++ [page])

/-- `X1337Scraper._get_torrent_links_from_torrents_page`
(`for page in range(1, max_pages + 1)` with the empty-page break),
instrumented with the list of visited pages. -/
def get_torrent_links_from_torrents_page (fetch : Nat → List String)
    (maxPages : Nat) : List Nat × List String :=
  pages_loop_stop fetch maxPages 1 [] []

/-- A store operation: an `insert_release` or a `delete_release` call. -/
inductive StoreOp where
  | insertOp (c : GameRelease)
  | deleteOp (rid : Nat)

/-- Apply one store operation; a failed operation leaves the store as is. -/
def applyOp (db : List StoredRelease) : StoreOp → List StoredRelease
  | StoreOp.insertOp c =>
    match insert_release db c with
    | some p => p.2
    | none => db
  | StoreOp.deleteOp rid => (delete_release db rid).getD db

/-- Run a sequence of store operations from the empty store. -/
def runOps (ops : List StoreOp) : List StoredRelease :=
  ops.foldl applyOp []

/-- The JSON payload returned by a route handler in `app.py`. -/
structure ApiResponse where
  success : Bool
  httpStatus : Nat
deriving DecidableEq

/-- The `/api/sync` handler `sync_releases` (`app.py`): component checks,
then the `sync_in_progress` guard, then a background worker thread is
started.  The progress state is polymorphic because the handler never reads
or writes `sync_progress`; the second component records whether a worker
thread was started (the request is never queued). -/
def sync_releases {P : Type} (dbInit settingsInit scraperInit : Bool)
    (syncInProgress : Bool) (progress : P) : ApiResponse × Bool × P :=
  if !dbInit then ({ success := false, httpStatus := 500 }, false, progress)
  else if !settingsInit then ({ success := false, httpStatus := 500 }, false, progress)
  else if !scraperInit then ({ success := false, httpStatus := 500 }, false, progress)
  else if syncInProgress then ({ success := false, httpStatus := 400 }, false, progress)
  else ({ success := true, httpStatus := 200 }, true, progress)

/-- Whitespace for Python's `str.strip()` (ASCII part). -/
def pyIsSpace (c : Char) : Bool :=
  c = ' ' ∨ c = '\t' ∨ c = '\n' ∨ c = '\r' ∨ c = Char.ofNat 11 ∨ c = Char.ofNat 12

/-- Python `str.strip()` on a character list: drop whitespace at both ends. -/
def pyStrip (cs : List Char) : List Char :=
  ((cs.dropWhile pyIsSpace).reverse.dropWhile pyIsSpace).reverse

/-- The short-description derivation inside
`X1337Scraper._extract_release_details`:
`description[:300].strip() + "..."` when the description exceeds 300
characters, otherwise the description itself. -/
def make_short_description (description : String) : String :=
  if description.length > 300
  then String.mk (pyStrip (description.data.take 300)) ++ "..."
  else description

/-- The short form as the spec words it (for comparison with the source
derivation above): "truncates to 300 characters with an ellipsis marker
appended" — the first 300 characters followed by the marker, with no
whitespace stripping. -/
def spec_short_description (description : String) : String :=
  if description.length > 300
  then String.mk (description.data.take 300) ++ "..."
  else description

/-- Numeric value of a digit run (`int(match.group(1))`). -/
def digitsVal (ds : List Char) : Nat :=
  ds.foldl (fun n c => n * 10 + (c.toNat - Char.toNat (Char.ofNat 48))) 0

/-- Remove a literal word from the front of the input, or fail. -/
def stripWord : List Char → List Char → Option (List Char)
  | [], cs => some cs
  | _ :: _, [] => none
  | w :: ws, c :: cs => if c = w then stripWord ws cs else none

/-- Match the regex tail `\s+ago` (one or more whitespace, then the literal
`ago`; the pattern is unanchored so anything may follow). -/
def spacesThenAgo (cs : List Char) : Bool :=
  decide (cs.takeWhile pyIsSpace ≠ []) &&
  (stripWord [Char.ofNat 97, Char.ofNat 103, Char.ofNat 111]
    (cs.dropWhile pyIsSpace)).isSome

/-- After a long unit word: the regex tail `s?\s+ago` — the optional plural
`s` is tried greedily, falling back to the plain tail. -/
def afterLongUnit (cs : List Char) : Bool :=
  match cs with
  | c :: rest => if c = Char.ofNat 115 then spacesThenAgo rest || spacesThenAgo cs
                 else spacesThenAgo cs
  | [] => spacesThenAgo cs

/-- The long-form unit alternation of `_parse_relative_date`
(`second|minute|hour|day|week|month|year`), in pattern order. -/
def longUnits : List String :=
  ["second", "minute", "hour", "day", "week", "month", "year"]

/-- Attempt the long pattern `(\d+)\s+(second|...|year)s?\s+ago` at the
start of `cs`, with the regex engine's ordered alternation (a unit whose
continuation fails yields to the next alternative). -/
def tryLongAt (cs : List Char) : Option (Nat × String) :=
  let ds := cs.takeWhile Char.isDigit
  if ds = [] then none
  else
    let r1 := cs.dropWhile Char.isDigit
    if r1.takeWhile pyIsSpace = [] then none
    else
      let r2 := r1.dropWhile pyIsSpace
      longUnits.findSome? (fun u =>
        match stripWord u.data r2 with
        | some rest => if afterLongUnit rest then some (digitsVal ds, u) else none
        | none => none)

/-- `re.search` scanning for the long pattern: try every start position from
the left, first match wins. -/
def search_long : List Char → Option (Nat × String)
  | [] => none
  | c :: cs =>
    match tryLongAt (c :: cs) with
    | some r => some r
    | none => search_long cs

/-- The abbreviated unit alternation (`sec|min|hr|hrs|h|d|w|mo|y`), in
pattern order. -/
def shortUnits : List String :=
  ["sec", "min", "hr", "hrs", "h", "d", "w", "mo", "y"]

/-- Attempt the short pattern `(\d+)\s*(sec|min|hr|hrs|h|d|w|mo|y)\s+ago` at
the start of `cs` (note `\s*`: the space before the unit is optional). -/
def tryShortAt (cs : List Char) : Option (Nat × String) :=
  let ds := cs.takeWhile Char.isDigit
  if ds = [] then none
  else
    let r2 := (cs.dropWhile Char.isDigit).dropWhile pyIsSpace
    shortUnits.findSome? (fun u =>
      match stripWord u.data r2 with
      | some rest => if spacesThenAgo rest then some (digitsVal ds, u) else none
      | none => none)

/-- `re.search` scanning for the short pattern. -/
def search_short : List Char → Option (Nat × String)
  | [] => none
  | c :: cs =>
    match tryShortAt (c :: cs) with
    | some r => some r
    | none => search_short cs

/-- The `unit_mapping` dict of `_parse_relative_date`
(`.get(unit, unit)`, so `hrs` falls through unchanged). -/
def shortUnitMap (u : String) : String :=
  if u = "sec" then "second"
  else if u = "min" then "minute"
  else if u = "hr" then "hour"
  else if u = "h" then "hour"
  else if u = "d" then "day"
  else if u = "w" then "week"
  else if u = "mo" then "month"
  else if u = "y" then "year"
  else u

/-- `datetime.min` (0001-01-01 00:00:00) as seconds relative to the Unix
epoch: −719162·86400. -/
def pyMinDatetimeTs : Int := -62135596800

/-- The largest whole-second `timedelta` Python can construct:
`timedelta.max` = 999999999 days 23:59:59.999999, i.e. 999999999·86400+86399
whole seconds.  A `timedelta(<unit>=amount)` call raises `OverflowError`
exactly when its span exceeds this (for the whole-day units day/week/month/
year, whose spans are multiples of 86400, exceeding 999999999 days and
exceeding this second count coincide). -/
def tdMaxSeconds : Int := 86399999913686399

/-- Python `str.startswith` on the character lists of the two strings. -/
def pyStartsWith (s w : String) : Bool :=
  (stripWord w.data s.data).isSome

/-- Python `str.lower` (ASCII part) on the character list of a string. -/
def pyLower (s : String) : String :=
  String.mk (s.data.map Char.toLower)

/-- The unit dispatch of `X1337Scraper._calculate_date_from_ago`
(`startswith` chains, in source order): the span subtracted from `now`, in
seconds, with a month approximated as 30 days and a year as 365 days;
`none` for an unknown unit (the function falls through to `return None`). -/
def unit_delta_seconds (amount : Nat) (u : String) : Option Int :=
  if pyStartsWith u "sec" || u == "s" then some amount
  else if pyStartsWith u "min" || u == "m" then some (amount * 60)
  else if pyStartsWith u "hour" || pyStartsWith u "hr" || u == "h" then some (amount * 3600)
  else if pyStartsWith u "day" || u == "d" then some (amount * 86400)
  else if pyStartsWith u "week" || u == "w" then some (amount * 604800)
  else if pyStartsWith u "month" || u == "mo" then some (amount * 2592000)
  else if pyStartsWith u "year" || u == "y" then some (amount * 31536000)
  else none

/-- `X1337Scraper._calculate_date_from_ago`: lowercase the unit, dispatch on
it and subtract the span from `now`.  Python raises `OverflowError` when the
`timedelta` exceeds `timedelta.max` or when the resulting datetime falls
before `datetime.min`; the source catches both and returns `None`. -/
def calculate_date_from_ago (now : Int) (amount : Nat) (unit : String) :
    Option Int :=
  match unit_delta_seconds amount (pyLower unit) with
  | none => none
  | some d =>
    if d > tdMaxSeconds ∨ now - d < pyMinDatetimeTs then none
    else some (now - d)

/-- `X1337Scraper._parse_relative_date`, with `datetime.now()` made an
explicit parameter `now` (seconds): empty text yields `None`; otherwise the
text is stripped and lowercased, the long pattern is searched first, then the
abbreviated one (mapped through `unit_mapping`); no match yields `None`. -/
def parse_relative_date (now : Int) (s : String) : Option Int :=
  if s.data = [] then none
  else
    match search_long ((pyStrip s.data).map Char.toLower) with
    | some nu => calculate_date_from_ago now nu.1 nu.2
    | none =>
      match search_short ((pyStrip s.data).map Char.toLower) with
      | some nu => calculate_date_from_ago now nu.1 (shortUnitMap nu.2)
      | none => none

/-! ### Fixtures used by the concrete counterexamples and witnesses -/

/-- A well-formed candidate as the detail extractor produces it. -/
def cFixA : GameRelease :=
  { url := "u1", title := "A", description := "d1", shortDescription := "d1",
    magnetLink := "m1", size := "1 GB", screenshotUrls := [], status := ReleaseStatus.NEW }

/-- A second candidate with a distinct composite key. -/
def cFixB : GameRelease :=
  { cFixA with url := "u2", magnetLink := "m2" }

/-- A third candidate with a distinct composite key. -/
def cFixC : GameRelease :=
  { cFixA with url := "u3", magnetLink := "m3" }

/-- `cFixA` re-extracted with a changed description (same composite key). -/
def cFixA2 : GameRelease :=
  { cFixA with description := "changed" }

/-- The store contents after `insert_release` commits `cFixA` into an empty
store (in particular, its record carries no `created_at` key). -/
def dbFix1 : List StoredRelease :=
  ((insert_release [] cFixA).getD (0, [])).2

/-- Worker state as `sync_releases_worker` builds it over the store
`dbFix1`: the key index and URL set derived from the stored records, all
counters zero. -/
def stFix1 : SyncState :=
  { db := dbFix1, keys := [(releaseKey cFixA, cFixA)], urls := ["u1"],
    newReleases := 0, updatedReleases := 0, skippedReleases := 0 }

/-- The empty worker state (empty store, empty indexes, zero counters). -/
def stFix0 : SyncState :=
  { db := [], keys := [], urls := [], newReleases := 0, updatedReleases := 0,
    skippedReleases := 0 }

/-- The key-index invariant maintained by the worker: every stored record's
composite key is present in the in-memory key index. -/
def keysInvariant (st : SyncState) : Prop :=
  ∀ r ∈ st.db, storedKey r ∈ st.keys.map Prod.fst

instance (st : SyncState) : Decidable (keysInvariant st) := by
  unfold keysInvariant
  infer_instance

/-- Fixture: the stored record of `dbFix1` curated to DOWNLOADED, as the key
index sees it. -/
def cFixDownloaded : GameRelease :=
  { cFixA with status := ReleaseStatus.DOWNLOADED }

/-- Fixture: the stored (DOWNLOADED) record behind `stFixDownloaded`. -/
def recFixDownloaded : StoredRelease :=
  { id := 1, url := "u1", title := "A", description := "d1",
    shortDescription := "d1", magnetLink := some "m1", size := "1 GB",
    screenshotUrls := [], status := ReleaseStatus.DOWNLOADED,
    createdAt := none, updatedAt := none }

/-- Fixture: worker state over a store whose only record is DOWNLOADED. -/
def stFixDownloaded : SyncState :=
  { db := [recFixDownloaded],
    keys := [(releaseKey cFixA, cFixDownloaded)], urls := ["u1"],
    newReleases := 0, updatedReleases := 0, skippedReleases := 0 }

/-- Fixture: the record `insert_release` writes for `cFixA` (id 1, no
`created_at` key). -/
def recFixA : StoredRelease :=
  { id := 1, url := "u1", title := "A", description := "d1",
    shortDescription := "d1", magnetLink := some "m1", size := "1 GB",
    screenshotUrls := [], status := ReleaseStatus.NEW,
    createdAt := none, updatedAt := none }

/-- Fixture: an extracted candidate without a magnet link. -/
def cFixNoMagnet : GameRelease :=
  { cFixA with magnetLink := "" }

/-- C5 counterexample: with page 1 empty and page 2 non-empty, the page loop
of `get_releases_from_pages` — the one the sync run uses — still fetches
page 2; it does not stop at the empty page. -/
def fetchCex : Nat → List String :=
  fun p => if p = 2 then ["x"] else []

/-- Fixture: the store after inserting `cFixA` then `cFixB`. -/
def dbFixAB : List StoredRelease :=
  ((insert_release (runOps [StoreOp.insertOp cFixA]) cFixB).getD (0, [])).2

/-- C10 counterexample: a 301-character description whose 300th character is
a space.  The source strips whitespace from the truncated prefix before
appending the marker, so the result differs from "the first 300 characters
with an ellipsis marker appended". -/
def dFixLong : String :=
  String.mk (List.replicate 299 (Char.ofNat 97) ++ [' ', Char.ofNat 98])

/-! ### Helper lemmas on the key index and the store -/

/-- A successful dict lookup means the key is in the dict's key set. -/
theorem dictLookup_mem_dom {l : List ((String × String) × GameRelease)}
    {k : String × String} {v : GameRelease}
    (h : dictLookup l k = some v) : k ∈ l.map Prod.fst := by
  induction l with
  | nil => simp [dictLookup] at h
  | cons p rest ih =>
    by_cases hk : k = p.1
    · simp [hk]
    · simp only [dictLookup] at h
      rw [if_neg hk] at h
      simp [ih h]

/-- A key present in the dict's key set is found by lookup. -/
theorem dictLookup_of_mem_dom {l : List ((String × String) × GameRelease)}
    {k : String × String}
    (h : k ∈ l.map Prod.fst) : ∃ v, dictLookup l k = some v := by
  induction l with
  | nil => simp at h
  | cons p rest ih =>
    by_cases hk : k = p.1
    · exact ⟨p.2, by simp [dictLookup, hk]⟩
    · simp only [List.map_cons, List.mem_cons] at h
      rcases h with h | h
      · exact absurd h.symm (fun he => hk he.symm)
      · obtain ⟨v, hv⟩ := ih h
        exact ⟨v, by simp [dictLookup, if_neg hk, hv]⟩

/-- The worker's magnet keying never produces the empty string. -/
theorem candMagnetKey_ne_empty (m : String) : candMagnetKey m ≠ "" := by
  unfold candMagnetKey
  split
  · intro h
    exact absurd h (by decide)
  · assumption

/-- If a stored record trips the duplicate check of `insert_release` for a
candidate, the two have the same composite key under the worker's keying. -/
theorem storedKey_eq_of_dup {r : StoredRelease} {c : GameRelease}
    (hu : r.url = c.url)
    (hm : insMagnetKey r.magnetLink = candMagnetKey c.magnetLink) :
    storedKey r = releaseKey c := by
  unfold storedKey releaseKey
  rw [hu]
  cases hrm : r.magnetLink with
  | none =>
    rw [hrm] at hm
    simp only [insMagnetKey] at hm
    simp only [Option.getD_none]
    rw [show candMagnetKey "" = "no_magnet" from rfl, ← hm]
  | some s =>
    rw [hrm] at hm
    simp only [insMagnetKey] at hm
    simp only [Option.getD_some]
    by_cases hs : s = ""
    · exact absurd (hs ▸ hm).symm (candMagnetKey_ne_empty c.magnetLink)
    · rw [show candMagnetKey s = s from if_neg hs, hm]

/-- Under the key-index invariant, `insert_release` cannot hit its duplicate
check for a key the index does not contain. -/
theorem insert_release_isSome {st : SyncState} {c : GameRelease}
    (hinv : keysInvariant st)
    (hmiss : dictLookup st.keys (releaseKey c) = none) :
    (insert_release st.db c).isSome := by
  unfold insert_release
  split
  · next hdup =>
    exfalso
    rw [List.any_eq_true] at hdup
    obtain ⟨r, hr, hmatch⟩ := hdup
    rw [decide_eq_true_eq] at hmatch
    have hkey := storedKey_eq_of_dup hmatch.1 hmatch.2
    have hmem := hinv r hr
    rw [hkey] at hmem
    obtain ⟨v, hv⟩ := dictLookup_of_mem_dom hmem
    rw [hv] at hmiss
    exact Option.noConfusion hmiss
  · simp

/-- Every record of a store returned by a successful `update_release` is
either an untouched record of the input store or the rewritten record (the
candidate's content under the old `id`/`created_at`). -/
theorem update_release_mem {db db2 : List StoredRelease} {c : GameRelease}
    {now : Nat}
    (h : update_release db c now = some db2) :
    ∀ r ∈ db2, r ∈ db ∨ ∃ oldId oldCreated, r = updatedRecord c oldId oldCreated now := by
  induction db generalizing db2 with
  | nil => simp [update_release] at h
  | cons r0 rest ih =>
    simp only [update_release] at h
    split at h
    · split at h
      · next created _ =>
        rw [Option.some_inj] at h
        subst h
        intro r hr
        rcases List.mem_cons.mp hr with hr | hr
        · exact Or.inr ⟨r0.id, created, hr⟩
        · exact Or.inl (List.mem_cons_of_mem _ hr)
      · exact Option.noConfusion h
    · rw [Option.map_eq_some'] at h
      obtain ⟨db2t, hdb2t, hcons⟩ := h
      subst hcons
      intro r hr
      rcases List.mem_cons.mp hr with hr | hr
      · exact Or.inl (hr ▸ List.mem_cons_self _ _)
      · rcases ih hdb2t r hr with hmem | hnew
        · exact Or.inl (List.mem_cons_of_mem _ hmem)
        · exact Or.inr hnew

/-- The rewritten record keeps the candidate's composite key. -/
theorem storedKey_updatedRecord (c : GameRelease) (oldId oldCreated now : Nat) :
    storedKey (updatedRecord c oldId oldCreated now) = releaseKey c := rfl

/-- Case equation: the resolver step for a candidate whose key the index
contains (the skip/update path). -/
theorem callback_hit {st : SyncState} {c : GameRelease} {ex : GameRelease}
    (now : Nat) (h : dictLookup st.keys (releaseKey c) = some ex) :
    insert_release_callback st c now =
      if ex.status = ReleaseStatus.NEW ∧ needs_update ex c then
        ({ st with
            db := (update_release st.db c now).getD st.db
            updatedReleases := st.updatedReleases + 1
            skippedReleases := st.skippedReleases + 1 },
          Classification.updated, true)
      else
        ({ st with skippedReleases := st.skippedReleases + 1 },
          Classification.skipped, true) := by
  unfold insert_release_callback
  rw [h]

/-- Case equation: the resolver step for a candidate with an unseen key
(the new-release path). -/
theorem callback_miss {st : SyncState} {c : GameRelease}
    (now : Nat) (h : dictLookup st.keys (releaseKey c) = none) :
    insert_release_callback st c now =
      match insert_release st.db c with
      | some p =>
        ({ st with
            db := p.2
            newReleases := st.newReleases + 1
            keys := (releaseKey c, c) :: st.keys
            urls := c.url :: st.urls },
          Classification.inserted, true)
      | none => (st, Classification.insertFailed, false) := by
  unfold insert_release_callback
  rw [h]

/-- Shape of a successful `insert_release`: the assigned id is
`_get_next_id` and the store gains exactly the candidate's record
(no `created_at`/`updated_at` keys, magnet stored as given). -/
theorem insert_release_eq_some {db db' : List StoredRelease} {c : GameRelease}
    {i : Nat} (h : insert_release db c = some (i, db')) :
    i = get_next_id db ∧ db' = db ++ [{
      id := get_next_id db, url := c.url, title := c.title,
      description := c.description, shortDescription := c.shortDescription,
      magnetLink := some c.magnetLink, size := c.size,
      screenshotUrls := c.screenshotUrls, status := c.status,
      createdAt := none, updatedAt := none }] := by
  unfold insert_release at h
  split at h
  · exact Option.noConfusion h
  · rw [Option.some_inj] at h
    exact ⟨(congrArg Prod.fst h).symm, (congrArg Prod.snd h).symm⟩

/-- One resolver step preserves the key-index invariant. -/
theorem step_keysInvariant {st : SyncState} {c : GameRelease} {now : Nat}
    (hinv : keysInvariant st) :
    keysInvariant (insert_release_callback st c now).1 := by
  cases hlk : dictLookup st.keys (releaseKey c) with
  | some existing =>
    rw [callback_hit now hlk]
    split
    · intro r hr
      simp only at hr ⊢
      cases hupd : update_release st.db c now with
      | none =>
        rw [hupd] at hr
        exact hinv r hr
      | some db2 =>
        rw [hupd] at hr
        simp only [Option.getD_some] at hr
        rcases update_release_mem hupd r hr with hmem | ⟨oldId, oldCreated, hrec⟩
        · exact hinv r hmem
        · rw [hrec, storedKey_updatedRecord]
          exact dictLookup_mem_dom hlk
    · intro r hr
      exact hinv r hr
  | none =>
    rw [callback_miss now hlk]
    cases hins : insert_release st.db c with
    | some p =>
      obtain ⟨newId, db'⟩ := p
      intro r hr
      simp only at hr ⊢
      rw [(insert_release_eq_some hins).2] at hr
      rcases List.mem_append.mp hr with hmem | hnew
      · exact List.mem_cons_of_mem _ (hinv r hmem)
      · rw [List.mem_singleton.mp hnew]
        exact List.mem_cons_self _ _
    | none =>
      intro r hr
      exact hinv r hr

/-- One resolver step only grows the key index. -/
theorem step_dom_mono {st : SyncState} {c : GameRelease} {now : Nat}
    {k : String × String} (hk : k ∈ st.keys.map Prod.fst) :
    k ∈ (insert_release_callback st c now).1.keys.map Prod.fst := by
  cases hlk : dictLookup st.keys (releaseKey c) with
  | some existing =>
    rw [callback_hit now hlk]
    split <;> exact hk
  | none =>
    rw [callback_miss now hlk]
    cases hins : insert_release st.db c with
    | some p => exact List.mem_cons_of_mem _ hk
    | none => exact hk

/-- Under the invariant, after a resolver step the processed candidate's key
is in the key index (the skip/update path found it there; the insert path
adds it in place). -/
theorem step_key_mem {st : SyncState} {c : GameRelease} {now : Nat}
    (hinv : keysInvariant st) :
    releaseKey c ∈ (insert_release_callback st c now).1.keys.map Prod.fst := by
  cases hlk : dictLookup st.keys (releaseKey c) with
  | some existing =>
    have hmem := dictLookup_mem_dom hlk
    rw [callback_hit now hlk]
    split <;> exact hmem
  | none =>
    rw [callback_miss now hlk]
    cases hins : insert_release st.db c with
    | some p => exact List.mem_cons_self _ _
    | none =>
      exfalso
      have := insert_release_isSome hinv hlk
      rw [hins] at this
      exact Bool.noConfusion this

/-- A candidate whose key is already in the key index never takes the
new-release branch. -/
theorem step_not_inserted_of_mem {st : SyncState} {c : GameRelease} {now : Nat}
    (hk : releaseKey c ∈ st.keys.map Prod.fst) :
    (insert_release_callback st c now).2.1 ≠ Classification.inserted := by
  obtain ⟨v, hv⟩ := dictLookup_of_mem_dom hk
  rw [callback_hit now hv]
  split <;> simp

/-- Unfolding equation for `runTrace` on a non-empty candidate list. -/
theorem runTrace_cons (st : SyncState) (c : GameRelease) (rest : List GameRelease)
    (now : Nat) :
    runTrace st (c :: rest) now =
      ((runTrace (insert_release_callback st c now).1 rest now).1,
        (insert_release_callback st c now).2.1 ::
          (runTrace (insert_release_callback st c now).1 rest now).2) := rfl

/-- If a candidate's key is already in the index when the run reaches the
remaining list, that candidate is not classified new, wherever it sits. -/
theorem runTrace_no_inserted_at {cs : List GameRelease} {st : SyncState}
    {now : Nat} {j : Nat} {cj : GameRelease}
    (hinv : keysInvariant st) (hcj : cs[j]? = some cj)
    (hk : releaseKey cj ∈ st.keys.map Prod.fst) :
    (runTrace st cs now).2[j]? ≠ some Classification.inserted := by
  induction cs generalizing st j with
  | nil => simp at hcj
  | cons c rest ih =>
    cases j with
    | zero =>
      rw [List.getElem?_cons_zero, Option.some_inj] at hcj
      subst hcj
      rw [runTrace_cons, List.getElem?_cons_zero]
      intro h
      exact step_not_inserted_of_mem hk (Option.some_inj.mp h)
    | succ j' =>
      rw [List.getElem?_cons_succ] at hcj
      rw [runTrace_cons, List.getElem?_cons_succ]
      exact ih (step_keysInvariant hinv) hcj (step_dom_mono hk)

/-- C1.  In any run of the resolver started from a state satisfying the
key-index invariant (as the worker builds it from the store), whenever two
candidates at positions `i < j` carry the same composite key, the one at `j`
is not classified new: after the earlier one is resolved its key is in the
in-memory index (a successful insert adds it in place), so the later one
takes the updated-or-skipped path. -/
theorem claim_C1_at_most_first_new (st : SyncState) (cs : List GameRelease)
    (now : Nat) (i j : Nat) (ci cj : GameRelease)
    (hinv : keysInvariant st) (hij : i < j)
    (hci : cs[i]? = some ci) (hcj : cs[j]? = some cj)
    (hkey : releaseKey ci = releaseKey cj) :
    (runTrace st cs now).2[j]? ≠ some Classification.inserted := by
  induction cs generalizing st i j with
  | nil => simp at hci
  | cons c rest ih =>
    cases j with
    | zero => omega
    | succ j' =>
      rw [List.getElem?_cons_succ] at hcj
      rw [runTrace_cons, List.getElem?_cons_succ]
      cases i with
      | zero =>
        rw [List.getElem?_cons_zero, Option.some_inj] at hci
        have hmem : releaseKey cj ∈
            (insert_release_callback st c now).1.keys.map Prod.fst := by
          rw [← hkey, hci]
          exact step_key_mem hinv
        exact runTrace_no_inserted_at (step_keysInvariant hinv) hcj hmem
      | succ i' =>
        rw [List.getElem?_cons_succ] at hci
        exact ih _ i' j' (step_keysInvariant hinv) (by omega) hci hcj

/-- C1 witness: on an empty store two identical candidates in one run are
classified new then skipped — the second is never new. -/
theorem claim_C1_witness :
    keysInvariant stFix0 ∧
    (runTrace stFix0 [cFixA, cFixA] 5).2 =
      [Classification.inserted, Classification.skipped] ∧
    (runTrace stFix0 [cFixA, cFixA] 5).2[1]? ≠ some Classification.inserted :=
  ⟨by decide, by decide,
    claim_C1_at_most_first_new stFix0 [cFixA, cFixA] 5 0 1 cFixA cFixA
      (by decide) (by decide) (by decide) (by decide) rfl⟩

/-- C3.  A candidate whose composite key matches a stored record with
status DOWNLOADED or IGNORED is always skipped: the resolver's output state
keeps the store untouched (no `update_release` call, so the stored record's
content and status are unchanged) and only the skipped counter moves,
whatever the candidate's content. -/
theorem claim_C3_curated_never_overwritten (st : SyncState) (c : GameRelease)
    (now : Nat) (ex : GameRelease)
    (hlk : dictLookup st.keys (releaseKey c) = some ex)
    (hst : ex.status = ReleaseStatus.DOWNLOADED ∨ ex.status = ReleaseStatus.IGNORED) :
    insert_release_callback st c now =
      ({ st with skippedReleases := st.skippedReleases + 1 },
        Classification.skipped, true) := by
  rw [callback_hit now hlk, if_neg]
  rintro ⟨hnew, -⟩
  rcases hst with h | h <;> rw [h] at hnew <;> exact ReleaseStatus.noConfusion hnew

/-- C3 witness: re-extracting the same key with changed description leaves a
DOWNLOADED record untouched and is counted skipped. -/
theorem claim_C3_witness :
    dictLookup stFixDownloaded.keys (releaseKey cFixA2) = some cFixDownloaded ∧
    insert_release_callback stFixDownloaded cFixA2 7 =
      ({ stFixDownloaded with
          skippedReleases := stFixDownloaded.skippedReleases + 1 },
        Classification.skipped, true) :=
  ⟨by decide,
    claim_C3_curated_never_overwritten stFixDownloaded cFixA2 7 cFixDownloaded
      (by decide) (Or.inl (by decide))⟩

/-- Per-step counter accounting (under the key-index invariant, so the
insert cannot fail): exactly one of new/skipped advances per candidate, and
the updated counter advances at most as much as the skipped counter. -/
theorem step_counters {st : SyncState} {c : GameRelease} {now : Nat}
    (hinv : keysInvariant st) :
    (insert_release_callback st c now).1.newReleases +
        (insert_release_callback st c now).1.skippedReleases =
      st.newReleases + st.skippedReleases + 1 ∧
    (insert_release_callback st c now).1.updatedReleases + st.skippedReleases ≤
      st.updatedReleases + (insert_release_callback st c now).1.skippedReleases := by
  cases hlk : dictLookup st.keys (releaseKey c) with
  | some existing =>
    rw [callback_hit now hlk]
    split <;> simp <;> omega
  | none =>
    rw [callback_miss now hlk]
    cases hins : insert_release st.db c with
    | some p =>
      refine ⟨by simp; omega, by simp⟩
    | none =>
      exfalso
      have := insert_release_isSome hinv hlk
      rw [hins] at this
      exact Bool.noConfusion this

/-- C4 counterexample: a single candidate hitting the update branch bumps
both `skipped_releases` and `updated_releases` — the three counters add up
to 2 for one resolved candidate, so they do not partition the candidates. -/
theorem claim_C4_counterexample :
    (runTrace stFix1 [cFixA2] 5).2 = [Classification.updated] ∧
    (runTrace stFix1 [cFixA2] 5).1.skippedReleases = 1 ∧
    (runTrace stFix1 [cFixA2] 5).1.newReleases +
        (runTrace stFix1 [cFixA2] 5).1.updatedReleases +
        (runTrace stFix1 [cFixA2] 5).1.skippedReleases = 2 ∧
    ([cFixA2] : List GameRelease).length = 1 := by
  decide

/-- C4 as amended.  Each resolved candidate increments exactly one of the
new/skipped counters, so new + skipped (not new + updated + skipped) equals
the number of resolved candidates; a candidate counted updated is counted
skipped as well, so the updated counter never grows faster than the skipped
counter. -/
theorem claim_C4_amended_counter_totals (st : SyncState) (cs : List GameRelease)
    (now : Nat) (hinv : keysInvariant st) :
    (runTrace st cs now).1.newReleases + (runTrace st cs now).1.skippedReleases =
      st.newReleases + st.skippedReleases + cs.length ∧
    (runTrace st cs now).1.updatedReleases + st.skippedReleases ≤
      st.updatedReleases + (runTrace st cs now).1.skippedReleases := by
  induction cs generalizing st with
  | nil => simp [runTrace]
  | cons c rest ih =>
    rw [runTrace_cons]
    have hstep := @step_counters st c now hinv
    have htail := ih _ (@step_keysInvariant st c now hinv)
    simp only [List.length_cons]
    omega

/-- C4 witness: the amended accounting at the concrete update-branch run. -/
theorem claim_C4_witness :
    keysInvariant stFix1 ∧
    ((runTrace stFix1 [cFixA2] 5).1.newReleases +
        (runTrace stFix1 [cFixA2] 5).1.skippedReleases =
      stFix1.newReleases + stFix1.skippedReleases + 1 ∧
    (runTrace stFix1 [cFixA2] 5).1.updatedReleases + stFix1.skippedReleases ≤
      stFix1.updatedReleases + (runTrace stFix1 [cFixA2] 5).1.skippedReleases) :=
  ⟨by decide, claim_C4_amended_counter_totals stFix1 [cFixA2] 5 (by decide)⟩

/-- Any record the resolver step leaves in the store is either an untouched
input record or carries the processed candidate's magnet link. -/
theorem callback_db_mem {st : SyncState} {c : GameRelease} {now : Nat}
    {r : StoredRelease} (hr : r ∈ (insert_release_callback st c now).1.db) :
    r ∈ st.db ∨ r.magnetLink = some c.magnetLink := by
  cases hlk : dictLookup st.keys (releaseKey c) with
  | some existing =>
    rw [callback_hit now hlk] at hr
    split at hr
    · simp only at hr
      cases hupd : update_release st.db c now with
      | none =>
        rw [hupd] at hr
        exact Or.inl hr
      | some db2 =>
        rw [hupd] at hr
        simp only [Option.getD_some] at hr
        rcases update_release_mem hupd r hr with hmem | ⟨oldId, oldCreated, hrec⟩
        · exact Or.inl hmem
        · exact Or.inr (by rw [hrec]; rfl)
    · exact Or.inl hr
  | none =>
    rw [callback_miss now hlk] at hr
    cases hins : insert_release st.db c with
    | some p =>
      obtain ⟨i, db'⟩ := p
      rw [hins] at hr
      simp only at hr
      rw [(insert_release_eq_some hins).2] at hr
      rcases List.mem_append.mp hr with hmem | hnew
      · exact Or.inl hmem
      · exact Or.inr (by rw [List.mem_singleton.mp hnew])
    | none =>
      rw [hins] at hr
      exact Or.inl hr

/-- C2.  (a) A candidate the detail extractor returns with an empty
magnet_link is dropped by the `has_download_links` gate before the resolver:
the processing step leaves the whole worker state unchanged.  (b) Hence every
record in the store after the torrent-processing loop either was already
there or carries a non-empty magnet link: no record with an empty magnet is
ever committed during a sync run. -/
theorem claim_C2_empty_magnet_never_committed
    (extract : String → Option GameRelease) (now : Nat)
    (st : SyncState) (urls : List String) :
    (∀ (s : SyncState) (u : String) (rel : GameRelease),
        extract u = some rel → rel.magnetLink = "" →
        process_torrent extract now s u = s) ∧
    (∀ r ∈ (process_torrents extract now st urls).db,
        r ∈ st.db ∨ ∃ m, r.magnetLink = some m ∧ m ≠ "") := by
  constructor
  · intro s u rel hext hmag
    unfold process_torrent
    split
    · rfl
    · have hdl : rel.hasDownloadLinks = false := by
        simp [GameRelease.hasDownloadLinks, hmag]
      simp only [hext, hdl]
      simp
  · induction urls generalizing st with
    | nil =>
      intro r hr
      exact Or.inl hr
    | cons u rest ih =>
      intro r hr
      have hr' : r ∈ (process_torrents extract now
          (process_torrent extract now st u) rest).db := hr
      rcases ih (process_torrent extract now st u) r hr' with hmem | hne
      · unfold process_torrent at hmem
        split at hmem
        · exact Or.inl hmem
        · cases hext : extract u with
          | some rel =>
            rw [hext] at hmem
            simp only at hmem
            by_cases hdl : rel.hasDownloadLinks
            · rw [if_pos hdl] at hmem
              rcases callback_db_mem hmem with hm | hm
              · exact Or.inl hm
              · refine Or.inr ⟨rel.magnetLink, hm, ?_⟩
                simpa [GameRelease.hasDownloadLinks] using hdl
            · rw [if_neg hdl] at hmem
              exact Or.inl hmem
          | none =>
            rw [hext] at hmem
            exact Or.inl hmem
      · exact Or.inr hne

/-- C2 witness: a magnet-less candidate leaves the state untouched, and the
loop over no URLs on a one-record store keeps that record accounted for. -/
theorem claim_C2_witness :
    process_torrent (fun _ => some cFixNoMagnet) 0 stFix0 "ux" = stFix0 ∧
    recFixA ∈ (process_torrents (fun _ => none) 0 stFix1 []).db ∧
    (recFixA ∈ stFix1.db ∨ ∃ m, recFixA.magnetLink = some m ∧ m ≠ "") :=
  ⟨(claim_C2_empty_magnet_never_committed (fun _ => some cFixNoMagnet) 0
      stFix0 []).1 stFix0 "ux" cFixNoMagnet rfl rfl,
    by decide,
    (claim_C2_empty_magnet_never_committed (fun _ => none) 0 stFix1 []).2
      recFixA (by decide)⟩

/-- The loop of `get_releases_from_pages` visits every page of its range,
whatever each fetch returns. -/
theorem pages_loop_no_stop_visited (fetch : Nat → List String) :
    ∀ (count page : Nat) (acc : List String) (visited : List Nat),
      (pages_loop_no_stop fetch count page acc visited).1 =
        visited ++ List.range' page count := by
  intro count
  induction count with
  | zero =>
    intro page acc visited
    simp [pages_loop_no_stop, List.range']
  | succ n ih =>
    intro page acc visited
    show (pages_loop_no_stop fetch n (page + 1)
        (dedupAppend acc (fetch page)).1 (visited ++ [page])).1 =
      visited ++ List.range' page (n + 1)
    rw [ih]
    show visited ++ [page] ++ List.range' (page + 1) n =
      visited ++ (page :: List.range' (page + 1) n)
    rw [List.append_assoc, List.singleton_append]

/-- The loop of `_get_torrent_links_from_torrents_page` never visits a page
beyond an empty page: once `page` would pass `p` with `fetch p = []`, the
`if not page_links: break` fires at `p`. -/
theorem pages_loop_stop_bounded (fetch : Nat → List String) (p : Nat)
    (hp : fetch p = []) :
    ∀ (count page : Nat) (acc : List String) (visited : List Nat),
      page ≤ p → (∀ v ∈ visited, v ≤ p) →
      ∀ q ∈ (pages_loop_stop fetch count page acc visited).1, q ≤ p := by
  intro count
  induction count with
  | zero =>
    intro page acc visited _ hvis q hq
    exact hvis q hq
  | succ n ih =>
    intro page acc visited hpage hvis q hq
    by_cases hpp : page = p
    · subst hpp
      simp only [pages_loop_stop, hp] at hq
      rw [show dedupAppend acc [] = (acc, []) from rfl] at hq
      rw [if_pos rfl] at hq
      rcases List.mem_append.mp hq with h | h
      · exact hvis q h
      · rw [List.mem_singleton.mp h]
    · have hlt : page < p := lt_of_le_of_ne hpage hpp
      simp only [pages_loop_stop] at hq
      split at hq
      · rcases List.mem_append.mp hq with h | h
        · exact hvis q h
        · rw [List.mem_singleton.mp h]; omega
      · refine ih (page + 1) _ _ (by omega) ?_ q hq
        intro v hv
        rcases List.mem_append.mp hv with h | h
        · exact hvis v h
        · rw [List.mem_singleton.mp h]; omega

/-- C5 counterexample theorem: the sync run's page loop visits page 2 even
though page 1 yielded no links, refuting early termination there. -/
theorem claim_C5_counterexample :
    fetchCex 1 = [] ∧
    (get_releases_from_pages_pagesLoop fetchCex 1 2).1 = [1, 2] ∧
    2 ∈ (get_releases_from_pages_pagesLoop fetchCex 1 2).1 := by
  decide

/-- C5 as amended.  The empty-page early stop exists only in
`_get_torrent_links_from_torrents_page`: there, a page `p` with an empty
fetch bounds the visited pages by `p`.  The page loop the sync run actually
uses (`get_releases_from_pages`) visits the whole requested range
`start..end` regardless of empty pages. -/
theorem claim_C5_amended_early_stop_location (fetch : Nat → List String)
    (maxPages p : Nat) (hp1 : 1 ≤ p) (hp : fetch p = []) :
    (∀ q ∈ (get_torrent_links_from_torrents_page fetch maxPages).1, q ≤ p) ∧
    (∀ s e, (get_releases_from_pages_pagesLoop fetch s e).1 =
      List.range' s (e + 1 - s)) := by
  constructor
  · intro q hq
    exact pages_loop_stop_bounded fetch p hp maxPages 1 [] [] hp1
      (by intro v hv; simp at hv) q hq
  · intro s e
    rw [show get_releases_from_pages_pagesLoop fetch s e =
      pages_loop_no_stop fetch (e + 1 - s) s [] [] from rfl]
    rw [pages_loop_no_stop_visited]
    exact List.nil_append _

/-- C5 witness: the amended statement at the concrete two-page fetch. -/
theorem claim_C5_witness :
    1 ∈ (get_torrent_links_from_torrents_page fetchCex 2).1 ∧
    1 ≤ 1 ∧
    (get_releases_from_pages_pagesLoop fetchCex 1 2).1 = List.range' 1 2 :=
  ⟨by decide,
    (claim_C5_amended_early_stop_location fetchCex 2 1 (by decide) (by decide)).1
      1 (by decide),
    (claim_C5_amended_early_stop_location fetchCex 2 1 (by decide) (by decide)).2
      1 2⟩

/-- The seed of a running maximum never exceeds the result. -/
theorem init_le_foldl_max : ∀ (l : List Nat) (acc : Nat), acc ≤ l.foldl max acc := by
  intro l
  induction l with
  | nil => intro acc; exact Nat.le_refl acc
  | cons b t ih =>
    intro acc
    exact Nat.le_trans (Nat.le_max_left acc b) (ih (max acc b))

/-- Every element of a list is bounded by its running maximum. -/
theorem mem_le_foldl_max : ∀ (l : List Nat) (acc a : Nat), a ∈ l → a ≤ l.foldl max acc := by
  intro l
  induction l with
  | nil => intro acc a ha; simp at ha
  | cons b t ih =>
    intro acc a ha
    rcases List.mem_cons.mp ha with h | h
    · subst h
      exact Nat.le_trans (Nat.le_max_right acc a) (init_le_foldl_max t (max acc a))
    · exact ih (max acc b) a h

/-- `_get_next_id` strictly dominates every id currently in the store. -/
theorem id_lt_get_next_id {db : List StoredRelease} {r : StoredRelease}
    (hr : r ∈ db) : r.id < get_next_id db := by
  unfold get_next_id
  split
  · next hnil => subst hnil; simp at hr
  · have : r.id ∈ db.map StoredRelease.id := List.mem_map_of_mem _ hr
    have := mem_le_foldl_max (db.map StoredRelease.id) 0 r.id this
    omega

/-- `delete_release` removes one record and keeps the rest in order. -/
theorem delete_release_sublist {db db2 : List StoredRelease} {rid : Nat}
    (h : delete_release db rid = some db2) : db2.Sublist db := by
  induction db generalizing db2 with
  | nil => simp [delete_release] at h
  | cons r rest ih =>
    simp only [delete_release] at h
    split at h
    · rw [Option.some_inj] at h
      subst h
      exact List.sublist_cons_self r rest
    · rw [Option.map_eq_some'] at h
      obtain ⟨db2t, hdb2t, hcons⟩ := h
      subst hcons
      exact List.Sublist.cons₂ r (ih hdb2t)

/-- Each store operation preserves distinctness of the live ids. -/
theorem nodup_ids_applyOp {db : List StoredRelease} (op : StoreOp)
    (h : (db.map StoredRelease.id).Nodup) :
    ((applyOp db op).map StoredRelease.id).Nodup := by
  cases op with
  | insertOp c =>
    simp only [applyOp]
    cases hins : insert_release db c with
    | some p =>
      obtain ⟨i, db'⟩ := p
      simp only
      rw [(insert_release_eq_some hins).2]
      rw [List.map_append]
      rw [List.nodup_append]
      refine ⟨h, List.nodup_singleton _, ?_⟩
      intro a ha hb
      simp only [List.map_cons, List.map_nil, List.mem_singleton] at hb
      obtain ⟨r, hr, hra⟩ := List.mem_map.mp ha
      have := id_lt_get_next_id hr
      omega
    | none => exact h
  | deleteOp rid =>
    simp only [applyOp]
    cases hdel : delete_release db rid with
    | some db2 =>
      rw [Option.getD_some]
      exact List.Nodup.sublist (List.Sublist.map _ (delete_release_sublist hdel)) h
    | none =>
      rw [Option.getD_none]
      exact h

/-- After any operation sequence from the empty store, live ids are distinct. -/
theorem nodup_ids_runOps (ops : List StoreOp) :
    ((runOps ops).map StoredRelease.id).Nodup := by
  suffices haux : ∀ (ops : List StoreOp) (db : List StoredRelease),
      (db.map StoredRelease.id).Nodup →
      ((List.foldl applyOp db ops).map StoredRelease.id).Nodup by
    exact haux ops [] (by simp)
  intro ops
  induction ops with
  | nil => intro db h; exact h
  | cons op rest ih =>
    intro db h
    exact ih (applyOp db op) (nodup_ids_applyOp op h)

/-- C6 counterexample: after `insert A; insert B; delete B`, inserting `C`
reuses id 2, which the same history had already assigned to `B` — a newly
assigned id is not strictly greater than every id ever assigned before. -/
theorem claim_C6_counterexample :
    (insert_release (runOps [StoreOp.insertOp cFixA]) cFixB).map Prod.fst = some 2 ∧
    (insert_release (runOps [StoreOp.insertOp cFixA, StoreOp.insertOp cFixB,
        StoreOp.deleteOp 2]) cFixC).map Prod.fst = some 2 := by
  decide

/-- C6 as amended.  Over any sequence of inserts and deletes from the empty
store, a successful insert assigns an id strictly greater than every id
currently in the store (ids of deleted records may be reused), and the live
ids are distinct both before and after the insert. -/
theorem claim_C6_amended_ids (ops : List StoreOp) (c : GameRelease)
    (i : Nat) (db' : List StoredRelease)
    (h : insert_release (runOps ops) c = some (i, db')) :
    (∀ r ∈ runOps ops, r.id < i) ∧
    ((runOps ops).map StoredRelease.id).Nodup ∧
    (db'.map StoredRelease.id).Nodup := by
  obtain ⟨hi, hdb⟩ := insert_release_eq_some h
  refine ⟨?_, nodup_ids_runOps ops, ?_⟩
  · intro r hr
    rw [hi]
    exact id_lt_get_next_id hr
  · rw [hdb, List.map_append, List.nodup_append]
    refine ⟨nodup_ids_runOps ops, List.nodup_singleton _, ?_⟩
    intro a ha hb
    simp only [List.map_cons, List.map_nil, List.mem_singleton] at hb
    obtain ⟨r, hr, hra⟩ := List.mem_map.mp ha
    have := id_lt_get_next_id hr
    omega

/-- C6 witness: the amended statement at the concrete insert of `cFixB`
after `cFixA`. -/
theorem claim_C6_witness :
    insert_release (runOps [StoreOp.insertOp cFixA]) cFixB = some (2, dbFixAB) ∧
    recFixA ∈ runOps [StoreOp.insertOp cFixA] ∧
    recFixA.id < 2 ∧
    ((runOps [StoreOp.insertOp cFixA]).map StoredRelease.id).Nodup ∧
    (dbFixAB.map StoredRelease.id).Nodup := by
  have h : insert_release (runOps [StoreOp.insertOp cFixA]) cFixB =
      some (2, dbFixAB) := by decide
  have main := claim_C6_amended_ids [StoreOp.insertOp cFixA] cFixB 2 dbFixAB h
  exact ⟨h, by decide, main.1 recFixA (by decide), main.2.1, main.2.2⟩

/-- C7.  Evaluation at the failing input: the store holds exactly the record
`insert_release` itself wrote for `cFixA` (whose dict has no `created_at`
key), and the same key arrives re-extracted with a changed description.
The resolver does take the update branch (`needs_update` holds, the updated
counter moves), but `update_release` hits the missing `created_at`
(a `KeyError` caught as `False`) and returns having changed nothing: the
stored content is NOT overwritten, contradicting the claim's (and the
spec's) "content overwritten, id/created_at preserved". -/
theorem claim_C7_update_loses_content :
    dbFix1 = [recFixA] ∧
    recFixA.createdAt = none ∧
    needs_update cFixA cFixA2 = true ∧
    (insert_release_callback stFix1 cFixA2 5).2.1 = Classification.updated ∧
    (insert_release_callback stFix1 cFixA2 5).1.updatedReleases = 1 ∧
    update_release dbFix1 cFixA2 5 = none ∧
    (insert_release_callback stFix1 cFixA2 5).1.db = dbFix1 := by
  decide

/-- C9.  While the shared `sync_in_progress` flag is set, a `/api/sync`
request gets a failure response, no worker thread is started (no queueing),
and the progress state is returned exactly as it was, whatever the component
initialization flags. -/
theorem claim_C9_second_sync_rejected {P : Type} (dbInit settingsInit scraperInit : Bool)
    (progress : P) :
    (sync_releases dbInit settingsInit scraperInit true progress).1.success = false ∧
    (sync_releases dbInit settingsInit scraperInit true progress).2.1 = false ∧
    (sync_releases dbInit settingsInit scraperInit true progress).2.2 = progress := by
  cases dbInit <;> cases settingsInit <;> cases scraperInit <;>
    simp [sync_releases]

set_option maxRecDepth 4000 in
/-- C10 counterexample theorem: on `dFixLong` the derived short description
is the stripped 299-character prefix plus the marker, not the plain
300-character prefix plus the marker. -/
theorem claim_C10_counterexample :
    dFixLong.length = 301 ∧
    make_short_description dFixLong ≠ spec_short_description dFixLong ∧
    make_short_description dFixLong =
      String.mk (List.replicate 299 (Char.ofNat 97)) ++ "..." ∧
    spec_short_description dFixLong =
      String.mk (List.replicate 299 (Char.ofNat 97) ++ [' ']) ++ "..." := by
  decide

/-- C10 as amended.  The derived short description equals the description
itself when its length is at most 300 characters; otherwise it is the first
300 characters with leading/trailing whitespace stripped (Python
`description[:300].strip()`), with the ellipsis marker appended — hence at
most 303 characters long. -/
theorem claim_C10_amended_short_description (d : String) :
    (d.length ≤ 300 → make_short_description d = d) ∧
    (300 < d.length →
      make_short_description d = String.mk (pyStrip (d.data.take 300)) ++ "..." ∧
      (make_short_description d).length ≤ 303) := by
  constructor
  · intro hle
    unfold make_short_description
    rw [if_neg (by omega)]
  · intro hgt
    have heq : make_short_description d =
        String.mk (pyStrip (d.data.take 300)) ++ "..." := by
      unfold make_short_description
      rw [if_pos (by omega)]
    refine ⟨heq, ?_⟩
    rw [heq]
    have h1 : (pyStrip (d.data.take 300)).length ≤ (d.data.take 300).length := by
      unfold pyStrip
      calc (((d.data.take 300).dropWhile pyIsSpace).reverse.dropWhile
              pyIsSpace).reverse.length
          = (((d.data.take 300).dropWhile pyIsSpace).reverse.dropWhile
              pyIsSpace).length := List.length_reverse _
        _ ≤ ((d.data.take 300).dropWhile pyIsSpace).reverse.length :=
            List.Sublist.length_le (List.dropWhile_sublist _)
        _ = ((d.data.take 300).dropWhile pyIsSpace).length :=
            List.length_reverse _
        _ ≤ (d.data.take 300).length :=
            List.Sublist.length_le (List.dropWhile_sublist _)
    have h2 : (d.data.take 300).length ≤ 300 := by
      rw [List.length_take]
      omega
    have h3 : (String.mk (pyStrip (d.data.take 300)) ++ "...").length =
        (pyStrip (d.data.take 300)).length + 3 := by
      rw [String.length_append]
      rfl
    omega

/-- Any span the unit dispatch produces is the amount times one of the
seven unit durations (in seconds). -/
theorem unit_delta_seconds_some {amount : Nat} {u : String} {d : Int}
    (h : unit_delta_seconds amount u = some d) :
    ∃ k : Int, (k = 1 ∨ k = 60 ∨ k = 3600 ∨ k = 86400 ∨ k = 604800 ∨
      k = 2592000 ∨ k = 31536000) ∧ d = amount * k := by
  unfold unit_delta_seconds at h
  split_ifs at h
  · rw [Option.some_inj] at h
    exact ⟨1, Or.inl rfl, by omega⟩
  · rw [Option.some_inj] at h
    exact ⟨60, Or.inr (Or.inl rfl), by omega⟩
  · rw [Option.some_inj] at h
    exact ⟨3600, Or.inr (Or.inr (Or.inl rfl)), by omega⟩
  · rw [Option.some_inj] at h
    exact ⟨86400, Or.inr (Or.inr (Or.inr (Or.inl rfl))), by omega⟩
  · rw [Option.some_inj] at h
    exact ⟨604800, Or.inr (Or.inr (Or.inr (Or.inr (Or.inl rfl)))), by omega⟩
  · rw [Option.some_inj] at h
    exact ⟨2592000, Or.inr (Or.inr (Or.inr (Or.inr (Or.inr (Or.inl rfl))))), by omega⟩
  · rw [Option.some_inj] at h
    exact ⟨31536000, Or.inr (Or.inr (Or.inr (Or.inr (Or.inr (Or.inr rfl))))), by omega⟩

/-- A successful `_calculate_date_from_ago` always returns `now` minus the
amount times one of the seven unit durations, and the result is never before
`datetime.min`. -/
theorem calculate_date_from_ago_some {now : Int} {n : Nat} {u : String}
    {r : Int} (h : calculate_date_from_ago now n u = some r) :
    ∃ k : Int, (k = 1 ∨ k = 60 ∨ k = 3600 ∨ k = 86400 ∨ k = 604800 ∨
      k = 2592000 ∨ k = 31536000) ∧ r = now - n * k ∧ pyMinDatetimeTs ≤ r := by
  unfold calculate_date_from_ago at h
  cases hd : unit_delta_seconds n (pyLower u) with
  | none =>
    rw [hd] at h
    exact Option.noConfusion h
  | some d =>
    rw [hd] at h
    simp only at h
    split at h
    · exact Option.noConfusion h
    · next hguard =>
      rw [Option.some_inj] at h
      push_neg at hguard
      obtain ⟨k, hk, hdk⟩ := unit_delta_seconds_some hd
      refine ⟨k, hk, ?_, ?_⟩
      · rw [← hdk]
        omega
      · omega

/-- A successful relative-date parse always returns `now` minus an integer
amount of one of the seven unit durations, never earlier than
`datetime.min`. -/
theorem parse_relative_date_some {T r : Int} {s : String}
    (h : parse_relative_date T s = some r) :
    ∃ (n : Nat) (k : Int), (k = 1 ∨ k = 60 ∨ k = 3600 ∨ k = 86400 ∨
      k = 604800 ∨ k = 2592000 ∨ k = 31536000) ∧
      r = T - n * k ∧ pyMinDatetimeTs ≤ r := by
  unfold parse_relative_date at h
  split at h
  · exact Option.noConfusion h
  · split at h
    · next nu _ => exact ⟨nu.1, calculate_date_from_ago_some h⟩
    · split at h
      · next nu _ => exact ⟨nu.1, calculate_date_from_ago_some h⟩
      · exact Option.noConfusion h

/-- C8 counterexample: "3000 years ago" is a recognized form, yet at the
reference time 2026-01-01 (epoch seconds 1767225600) the source returns
`None` — the subtraction lands before `datetime.min`, Python raises
`OverflowError`, and the handler swallows it — instead of
`T - 3000 * 365 days` as the claim requires for every recognized form. -/
theorem claim_C8_counterexample :
    parse_relative_date 1767225600 "3000 years ago" = none ∧
    parse_relative_date 1767225600 "3000 years ago" ≠
      some (1767225600 - 3000 * (31536000 : Int)) := by
  constructor
  · decide
  · decide

/-- C8 as amended.  `parse_relative` at reference time `T` returns
`T - N * unit` for recognized forms whose result is representable ("3 days
ago" yields `T - 3 days`, "1 year ago" yields `T - 365 days`, the month and
year spans being the 30- and 365-day approximations); unrecognized text such
as "garbage" yields null; and every successful parse is exactly `T` minus an
integer amount of one of the seven unit spans, never earlier than
`datetime.min` — recognized forms whose result would not be representable
yield null rather than an exception. -/
theorem claim_C8_amended_parse_relative :
    (∀ T : Int, pyMinDatetimeTs + 259200 ≤ T →
      parse_relative_date T "3 days ago" = some (T - 259200)) ∧
    (∀ T : Int, pyMinDatetimeTs + 31536000 ≤ T →
      parse_relative_date T "1 year ago" = some (T - 31536000)) ∧
    (∀ T : Int, parse_relative_date T "garbage" = none) ∧
    (∀ (T r : Int) (s : String), parse_relative_date T s = some r →
      ∃ (n : Nat) (k : Int), (k = 1 ∨ k = 60 ∨ k = 3600 ∨ k = 86400 ∨
        k = 604800 ∨ k = 2592000 ∨ k = 31536000) ∧
        r = T - n * k ∧ pyMinDatetimeTs ≤ r) := by
  refine ⟨?_, ?_, ?_, ?_⟩
  · intro T hT
    have h0 : parse_relative_date T "3 days ago" =
        calculate_date_from_ago T 3 "day" := rfl
    have h1 : calculate_date_from_ago T 3 "day" =
        if (259200 : Int) > tdMaxSeconds ∨ T - 259200 < pyMinDatetimeTs
        then none else some (T - 259200) := rfl
    rw [h0, h1, if_neg]
    simp only [tdMaxSeconds, pyMinDatetimeTs] at hT ⊢
    omega
  · intro T hT
    have h0 : parse_relative_date T "1 year ago" =
        calculate_date_from_ago T 1 "year" := rfl
    have h1 : calculate_date_from_ago T 1 "year" =
        if (31536000 : Int) > tdMaxSeconds ∨ T - 31536000 < pyMinDatetimeTs
        then none else some (T - 31536000) := rfl
    rw [h0, h1, if_neg]
    simp only [tdMaxSeconds, pyMinDatetimeTs] at hT ⊢
    omega
  · intro T
    rfl
  · intro T r s h
    exact parse_relative_date_some h

/-- C8 witness: the amended statement at reference time 0 (the epoch, a
valid `datetime`). -/
theorem claim_C8_witness :
    pyMinDatetimeTs + 259200 ≤ 0 ∧
    parse_relative_date 0 "3 days ago" = some (0 - 259200) ∧
    parse_relative_date 0 "1 year ago" = some (0 - 31536000) ∧
    parse_relative_date 0 "garbage" = none ∧
    (∃ (n : Nat) (k : Int), (k = 1 ∨ k = 60 ∨ k = 3600 ∨ k = 86400 ∨
      k = 604800 ∨ k = 2592000 ∨ k = 31536000) ∧
      (-259200 : Int) = 0 - n * k ∧ pyMinDatetimeTs ≤ -259200) :=
  ⟨by decide,
    claim_C8_amended_parse_relative.1 0 (by decide),
    claim_C8_amended_parse_relative.2.1 0 (by decide),
    claim_C8_amended_parse_relative.2.2.1 0,
    claim_C8_amended_parse_relative.2.2.2 0 (-259200) "3 days ago" (by decide)⟩

set_option maxRecDepth 4000 in
/-- C10 witness: the amended statement at a short and a long input. -/
theorem claim_C10_witness :
    ("abc" : String).length ≤ 300 ∧
    make_short_description "abc" = "abc" ∧
    300 < dFixLong.length ∧
    make_short_description dFixLong =
      String.mk (pyStrip (dFixLong.data.take 300)) ++ "..." :=
  ⟨by decide, (claim_C10_amended_short_description "abc").1 (by decide),
    by decide,
    ((claim_C10_amended_short_description dFixLong).2 (by decide)).1⟩

end FitGirl
